import Mathlib

/-!
Verification development for the `a-tlas` voxel renderer.

This file gives a shallow embedding of the spatial voxel index
(`src/world/chunk.rs`), the asynchronous TLAS update worker
(`src/async_worker.rs`), and the render task's consumption of the shared
selection state (`src/tasks/render.rs`), and proves the testable
properties stated in the specification against that embedding.

Modelling conventions:
* Rust `i32` values are modelled as `Int` (all arithmetic in the claims
  stays far from the 32-bit range), `u32`/`u64` as `Nat`; Rust `/` on
  `i32` is truncated division, modelled with `Int.tdiv`.
* Rust `f32` values that appear in instance transforms are modelled as
  exact rationals; no claim depends on floating-point rounding.
* `HashMap` is modelled as an association list with at most one entry per
  key; iteration order of a `HashMap` is unspecified in Rust, so the list
  order stands for one admissible iteration order, and every property
  proved about iteration-dependent output is order-insensitive.
* A Rust `panic!`, a failed `assert!` and `Option::unwrap` on `None` are
  all modelled by returning `none` from an `Option`-valued function.
-/

/-- `glam::IVec3`: a vector of three signed 32-bit integers. -/
structure IVec3 where
  x : Int
  y : Int
  z : Int
deriving DecidableEq, Repr

/-- `glam::UVec3`: a vector of three unsigned 32-bit integers. -/
structure UVec3 where
  x : Nat
  y : Nat
  z : Nat
deriving DecidableEq, Repr

/-- `HostVoxel` (src/world/mod.rs): per-cell payload `scale: f32`,
`material_index: u32`. -/
structure HostVoxel where
  scale : ℚ
  material_index : Nat
deriving DecidableEq, Repr

/-- The amount of voxels per chunk dimension (`CHUNK_WIDTH: u32 = 64`). -/
def CHUNK_WIDTH : Nat := 64

/-- `WORLD_WIDTH: i32 = 64` (src/world/chunk.rs). -/
def WORLD_WIDTH : Int := 64

/-- `WORLD_HEIGHT: i32 = 64` (src/world/chunk.rs). -/
def WORLD_HEIGHT : Int := 64

/-- `WORLD_DEPTH: i32 = 64` (src/world/chunk.rs). -/
def WORLD_DEPTH : Int := 64

/-- `struct Bounds(i32, i32)` (src/world/chunk.rs). -/
structure Bounds where
  lo : Int
  hi : Int

/-- `Bounds::inside`: `value > self.0 && value < self.1` (strict on both
ends). -/
def Bounds.inside (b : Bounds) (value : Int) : Bool :=
  b.lo < value && value < b.hi

/-- `vulkano::Packed24_8::new(low_24, high_8)`: packs a 24-bit and an
8-bit field into one `u32`. -/
def Packed24_8.new (low24 : Nat) (high8 : Nat) : Nat :=
  low24 % 2 ^ 24 + high8 % 2 ^ 8 * 2 ^ 24

/-- `vulkano::acceleration_structure::AccelerationStructureInstance`, with
the fields the renderer sets: the BLAS device address, the packed
`(custom_index, mask)` word, and the 3x4 row-major transform.  The
shader-binding-table word is left at vulkano's default of
`Packed24_8::new(0, 0)`. -/
structure AccelerationStructureInstance where
  acceleration_structure_reference : Nat
  instance_custom_index_and_mask : Nat
  instance_sbt_offset_and_flags : Nat
  transform : (ℚ × ℚ × ℚ × ℚ) × (ℚ × ℚ × ℚ × ℚ) × (ℚ × ℚ × ℚ × ℚ)
deriving DecidableEq, Repr

/-- `Chunk` (src/world/chunk.rs): a visibility flag plus a sparse map from
local coordinates to voxels (`HashMap<UVec3, HostVoxel>`, modelled as an
association list). -/
structure Chunk where
  visible : Bool
  voxels : List (UVec3 × HostVoxel)
deriving DecidableEq, Repr

/-- `Chunk::default()`: visible and with no voxels. -/
def Chunk.default : Chunk :=
  { visible := true, voxels := [] }

/-- `Chunk::empty`. -/
def Chunk.empty (c : Chunk) : Bool :=
  c.voxels.isEmpty

/-- `Chunk::contains`: key membership in the voxel map. -/
def Chunk.contains (c : Chunk) (position : UVec3) : Bool :=
  c.voxels.any fun e => e.1 == position

/-- The instance record built for one voxel inside
`Chunk::to_instances` (src/world/chunk.rs lines 82-115). -/
def Chunk.mkInstance (c : Chunk) (lod : Nat) (grid_position : IVec3)
    (acceleration_structure_reference : Nat) (local_position : UVec3)
    (voxel : HostVoxel) : AccelerationStructureInstance :=
  let lod_exponent : Nat := 2 ^ lod
  let offset : ℚ := ((List.range lod).map fun sublod => (sublod : ℚ) / 2).sum
  { acceleration_structure_reference := acceleration_structure_reference
    instance_custom_index_and_mask :=
      Packed24_8.new voxel.material_index (if c.visible then 0xFF else 0x00)
    instance_sbt_offset_and_flags := Packed24_8.new 0 0
    transform :=
      ((voxel.scale * (lod_exponent : ℚ), 0, 0,
        (((CHUNK_WIDTH : Int) * grid_position.x + (local_position.x : Int) : Int) : ℚ) + offset),
       (0, voxel.scale * (lod_exponent : ℚ), 0,
        (((CHUNK_WIDTH : Int) * grid_position.y + (local_position.y : Int) : Int) : ℚ) + offset),
       (0, 0, voxel.scale * (lod_exponent : ℚ),
        (((CHUNK_WIDTH : Int) * grid_position.z + (local_position.z : Int) : Int) : ℚ) + offset)) }

/-- The instance list produced by `Chunk::to_instances` below the `u32`
exponent limit: iterate the voxel map, keep the voxels whose local
position is divisible by `2^lod` on every axis (the source also
re-checks key membership, which is redundant but kept), and build one
instance record each. -/
def Chunk.instanceList (c : Chunk) (lod : Nat) (grid_position : IVec3)
    (acceleration_structure_reference : Nat) : List AccelerationStructureInstance :=
  let lod_exponent : Nat := 2 ^ lod
  c.voxels.filterMap fun e =>
    if c.contains e.1 && e.1.x % lod_exponent == 0 && e.1.y % lod_exponent == 0
        && e.1.z % lod_exponent == 0 then
      some (c.mkInstance lod grid_position acceleration_structure_reference e.1 e.2)
    else
      none

/-- `Chunk::to_instances`: the source first computes
`lod_exponent = 2u32.pow(lod)`, which for `lod >= 32` does not fit in a
`u32` — a panic under the debug profile, and a wrap to zero under the
release profile that makes the per-voxel `% lod_exponent` a
remainder-by-zero panic.  The model returns `none` whenever `2^lod`
exceeds the `u32` range and the filtered instance list otherwise. -/
def Chunk.to_instances (c : Chunk) (lod : Nat) (grid_position : IVec3)
    (acceleration_structure_reference : Nat) :
    Option (List AccelerationStructureInstance) :=
  if 2 ^ 32 ≤ 2 ^ lod then
    none
  else
    some (c.instanceList lod grid_position acceleration_structure_reference)

/-- `Chunk::insert`: panics (`none`) when the local position has a
component at or past `CHUNK_WIDTH`; returns `false` and leaves the chunk
unchanged when the position is occupied; otherwise stores the voxel and
returns `true`. -/
def Chunk.insert (c : Chunk) (position : UVec3) (voxel : HostVoxel) :
    Option (Bool × Chunk) :=
  if CHUNK_WIDTH ≤ position.x || CHUNK_WIDTH ≤ position.y || CHUNK_WIDTH ≤ position.z then
    none
  else if c.contains position then
    some (false, c)
  else
    some (true, { c with voxels := c.voxels ++ [(position, voxel)] })

/-- `ChunksInner = HashMap<IVec3, Chunk>`, modelled as an association
list. -/
abbrev ChunksInner := List (IVec3 × Chunk)

/-- `Chunks` (src/world/chunk.rs): the whole chunk index. -/
structure Chunks where
  inner : ChunksInner

/-- `HashMap::get`: the first (in a well-formed map, the only) entry with
the given key. -/
def lookupChunk (m : ChunksInner) (g : IVec3) : Option Chunk :=
  (m.find? fun e => e.1 == g).map fun e => e.2

/-- `HashMap::get_mut` followed by in-place mutation: replace the value
stored under key `g`. -/
def updateChunk (m : ChunksInner) (g : IVec3) (c : Chunk) : ChunksInner :=
  m.map fun e => if e.1 == g then (g, c) else e

/-- A Rust range `lo..hi` over `i32`, as the list of its elements. -/
def intRange (lo hi : Int) : List Int :=
  (List.range (hi - lo).toNat).map fun (i : Nat) => lo + (i : Int)

/-- `Chunks::create_empty_chunks`: one default chunk per grid coordinate
in `-WORLD_WIDTH..WORLD_WIDTH` x `-WORLD_HEIGHT..WORLD_HEIGHT` x
`-WORLD_DEPTH..WORLD_DEPTH`. -/
def Chunks.create_empty_chunks : ChunksInner :=
  (intRange (-WORLD_WIDTH) WORLD_WIDTH).flatMap fun x =>
    (intRange (-WORLD_HEIGHT) WORLD_HEIGHT).flatMap fun y =>
      (intRange (-WORLD_DEPTH) WORLD_DEPTH).map fun z =>
        (IVec3.mk x y z, Chunk.default)

/-- `Chunks::X_BOUNDS`. -/
def Chunks.X_BOUNDS : Bounds :=
  { lo := -WORLD_WIDTH * (CHUNK_WIDTH : Int), hi := WORLD_WIDTH * (CHUNK_WIDTH : Int) }

/-- `Chunks::Y_BOUNDS`. -/
def Chunks.Y_BOUNDS : Bounds :=
  { lo := -WORLD_HEIGHT * (CHUNK_WIDTH : Int), hi := WORLD_HEIGHT * (CHUNK_WIDTH : Int) }

/-- `Chunks::Z_BOUNDS`. -/
def Chunks.Z_BOUNDS : Bounds :=
  { lo := -WORLD_DEPTH * (CHUNK_WIDTH : Int), hi := WORLD_DEPTH * (CHUNK_WIDTH : Int) }

/-- `Chunks::in_bounds`. -/
def Chunks.in_bounds (position : IVec3) : Bool :=
  Chunks.X_BOUNDS.inside position.x && Chunks.Y_BOUNDS.inside position.y
    && Chunks.Z_BOUNDS.inside position.z

/-- `glam` componentwise `IVec3 / i32` (Rust truncated division). -/
def IVec3.divScalar (a : IVec3) (s : Int) : IVec3 :=
  ⟨a.x.tdiv s, a.y.tdiv s, a.z.tdiv s⟩

/-- `glam::IVec3::distance_squared`. -/
def IVec3.distance_squared (a b : IVec3) : Int :=
  (a.x - b.x) * (a.x - b.x) + (a.y - b.y) * (a.y - b.y) + (a.z - b.z) * (a.z - b.z)

/-- `Chunks::distance_to_chunk`: integer-truncated Euclidean distance, in
chunk-grid units, between a chunk coordinate and a world position
(`i32::isqrt` of the squared distance; the squared distance is always
non-negative). -/
def Chunks.distance_to_chunk (grid_position : IVec3) (position : IVec3) : Int :=
  Int.ofNat (Nat.sqrt (IVec3.distance_squared (position.divScalar (CHUNK_WIDTH : Int)) grid_position).toNat)

/-- `Chunks::active_chunks`: grid coordinates of the non-empty visible
chunks. -/
def Chunks.active_chunks (w : Chunks) : List IVec3 :=
  (w.inner.filter fun e => !e.2.empty && e.2.visible).map fun e => e.1

/-- `Chunks::translation_to_position`: split a global coordinate into a
chunk-grid coordinate and a local coordinate.  Panics (`none`) out of
bounds; the trailing `assert!`s of the source are kept as a second panic
case. -/
def Chunks.translation_to_position (position : IVec3) : Option (IVec3 × UVec3) :=
  if !Chunks.in_bounds position then
    none
  else
    let chunk_width : Int := (CHUNK_WIDTH : Int)
    let grid_position : IVec3 :=
      ⟨(if position.x < 0 then -chunk_width + position.x + 1 else position.x).tdiv chunk_width,
       (if position.y < 0 then -chunk_width + position.y + 1 else position.y).tdiv chunk_width,
       (if position.z < 0 then -chunk_width + position.z + 1 else position.z).tdiv chunk_width⟩
    let lx : Int := position.x - grid_position.x * chunk_width
    let ly : Int := position.y - grid_position.y * chunk_width
    let lz : Int := position.z - grid_position.z * chunk_width
    if lx < 0 || chunk_width < lx || ly < 0 || chunk_width < ly
        || lz < 0 || chunk_width < lz then
      none
    else
      some (grid_position, ⟨lx.toNat, ly.toNat, lz.toNat⟩)

/-- `Chunks::contains` for a global position: panics (`none`) out of
bounds or when the chunk is missing from the map. -/
def Chunks.contains (w : Chunks) (position : IVec3) : Option Bool :=
  match Chunks.translation_to_position position with
  | none => none
  | some (grid_position, local_position) =>
    match lookupChunk w.inner grid_position with
    | none => none
    | some chunk => some (chunk.contains local_position)

/-- `Chunks::get_voxel`: `some (some v)` when occupied, `some none` when
the in-bounds position is empty, `none` on a panic. -/
def Chunks.get_voxel (w : Chunks) (position : IVec3) : Option (Option HostVoxel) :=
  match Chunks.translation_to_position position with
  | none => none
  | some (grid_position, local_position) =>
    match lookupChunk w.inner grid_position with
    | none => none
    | some chunk =>
      some ((chunk.voxels.find? fun e => e.1 == local_position).map fun e => e.2)

/-- `Chunks::insert_voxel`: translate the global position, fetch the
chunk, insert locally.  `some (none, m)` is the recoverable failure
(occupied), `some (some grid, m)` success, `none` a panic. -/
def Chunks.insert_voxel (m : ChunksInner) (position : IVec3) (voxel : HostVoxel) :
    Option (Option IVec3 × ChunksInner) :=
  match Chunks.translation_to_position position with
  | none => none
  | some (grid_position, local_position) =>
    match lookupChunk m grid_position with
    | none => none
    | some current_chunk =>
      match current_chunk.insert local_position voxel with
      | none => none
      | some (ok, c) =>
        if ok then some (some grid_position, updateChunk m grid_position c)
        else some (none, updateChunk m grid_position c)

/-- A sequence of `insert_voxel` calls, aborting on the first panic. -/
def applyInserts (m : ChunksInner) : List (IVec3 × HostVoxel) → Option ChunksInner
  | [] => some m
  | op :: ops =>
    match Chunks.insert_voxel m op.1 op.2 with
    | none => none
    | some (_, m') => applyInserts m' ops

/-- Map with a fallible body: auxiliary used in the proofs below to
assemble the `(grid, chunk)` pairs of a traversal whose lookups all
succeed. -/
def tryMap : List α → (α → Option β) → Option (List β)
  | [], _ => some []
  | a :: l, f =>
    match f a, tryMap l f with
    | some b, some bs => some (b :: bs)
    | _, _ => none

/-- The comparator of `Chunks::to_instances`' `sort_by` call: order chunk
coordinates by their `distance_to_chunk` from the reference point. -/
def chunkDistLE (origin : IVec3) (a b : IVec3) : Prop :=
  Chunks.distance_to_chunk a origin ≤ Chunks.distance_to_chunk b origin

instance (origin : IVec3) : DecidableRel (chunkDistLE origin) := fun a b =>
  inferInstanceAs
    (Decidable (Chunks.distance_to_chunk a origin ≤ Chunks.distance_to_chunk b origin))

/-- The lazy `.map(|g| (g, map.get(g).unwrap())).flat_map(to_instances)
.take(max).collect()` pipeline of `Chunks::to_instances`: a chunk's
lookup (a potential `unwrap` panic) and its instance generation (a
potential `lod` panic, see `Chunk.to_instances`) are evaluated only
while fewer than `max_instance_count` records have been collected, and
any panic aborts the whole pipeline. -/
def Chunks.instancesFlatTake (m : ChunksInner) (lod : Nat)
    (acceleration_structure_reference : Nat) :
    Nat → List IVec3 → Option (List AccelerationStructureInstance)
  | _, [] => some []
  | max_instance_count, grid_position :: rest =>
    if max_instance_count = 0 then
      some []
    else
      match lookupChunk m grid_position with
      | none => none
      | some c =>
        match c.to_instances lod grid_position acceleration_structure_reference with
        | none => none
        | some block =>
          (Chunks.instancesFlatTake m lod acceleration_structure_reference
              (max_instance_count - (block.take max_instance_count).length) rest).map
            fun tail => block.take max_instance_count ++ tail

/-- `Chunks::to_instances`: sort the active chunks by distance from
`origin` (Rust's `sort_by` is a stable comparison sort; any comparison
sort gives the same output up to ties, and the HashMap order feeding it
is unspecified anyway), then flatten each chunk's instances in that
order and truncate to `max_instance_count` through the lazy pipeline
`instancesFlatTake`. -/
def Chunks.to_instances (w : Chunks) (lod : Nat) (origin : IVec3)
    (acceleration_structure_reference : Nat) (max_instance_count : Nat) :
    Option (List AccelerationStructureInstance) :=
  let chunks := w.active_chunks
  let sorted := chunks.insertionSort (chunkDistLE origin)
  Chunks.instancesFlatTake w.inner lod acceleration_structure_reference
    max_instance_count sorted

/-! ## The asynchronous TLAS update worker (src/async_worker.rs)

`run_worker` spawns a thread looping on a wake channel.  Each cycle, in
source order: poll the graphics flight until `last_frame` differs from
`current_frame()` (line 69), wait for that frame to retire (line 73),
read the back-buffer index as the negation of `current_as_index`
(line 75), execute the task graph that writes the instance data and
submits the TLAS update (lines 80-89), wait for the compute flight to go
idle (lines 91-95), record `last_frame = current_frame()` (line 97), and
only then store the back index into `current_as_index` (line 99).

The cross-thread state is modelled as a transition system.  The render
thread only advances the frame counter and reads `current_as_index`
(src/tasks/render.rs line 399); it never writes it, so the worker is the
single writer of `published`.  The graphics frame counter is modelled as
monotonically increasing, per the specification. -/

/-- The worker's position inside one update cycle. -/
inductive WorkerPhase where
  | idle
  | polling
  | writing
  | submitted
  | idled
  | recorded
deriving DecidableEq, Repr

/-- Shared and worker-local synchronization state: `published` is the
`current_as_index` atomic, `back` the worker's `back_index` local,
`frame` the graphics flight's current frame counter and `lastFrame` the
worker's `last_frame` local. -/
structure SyncState where
  published : Bool
  back : Bool
  phase : WorkerPhase
  frame : Nat
  lastFrame : Nat
deriving DecidableEq, Repr

/-- One transition of the worker/render system, read off `run_worker`:
the render thread may advance the frame counter at any time (`tick`);
the worker leaves the poll loop only when the counter differs from its
baseline (`startWrite`, which also takes `back_index` as the negation of
the published index, line 75); the publication store (line 99) happens
strictly after the compute flight's `wait_idle` has returned (lines
91-95) and after `last_frame` was recorded (line 97). -/
inductive WorkerStep : SyncState → SyncState → Prop where
  | tick (s : SyncState) :
      WorkerStep s { s with frame := s.frame + 1 }
  | wake (s : SyncState) :
      s.phase = .idle →
      WorkerStep s { s with phase := .polling }
  | startWrite (s : SyncState) :
      s.phase = .polling →
      s.lastFrame ≠ s.frame →
      WorkerStep s { s with phase := .writing, back := !s.published }
  | submitDone (s : SyncState) :
      s.phase = .writing →
      WorkerStep s { s with phase := .submitted }
  | idleDone (s : SyncState) :
      s.phase = .submitted →
      WorkerStep s { s with phase := .idled }
  | recordFrame (s : SyncState) :
      s.phase = .idled →
      WorkerStep s { s with phase := .recorded, lastFrame := s.frame }
  | publish (s : SyncState) :
      s.phase = .recorded →
      WorkerStep s { s with phase := .idle, published := s.back }

/-- The initial state: `current_as_index` starts `false`
(src/tasks/render.rs line 376), `last_frame` starts `0`
(src/async_worker.rs line 62), and the worker is parked on the channel;
the graphics flight may already be at any frame. -/
def SyncState.init (f0 : Nat) : SyncState :=
  { published := false, back := false, phase := .idle, frame := f0, lastFrame := 0 }

/-- States the system can reach from some initial state. -/
inductive SyncReachable : SyncState → Prop where
  | init (f0 : Nat) : SyncReachable (SyncState.init f0)
  | step {s s' : SyncState} : SyncReachable s → WorkerStep s s' → SyncReachable s'

/-- Phases strictly between the back-index read and the publication
store: the span `WriteInstanceData`..`PublishSwap` of the specification's
state machine. -/
def SyncState.updating (s : SyncState) : Prop :=
  s.phase = .writing ∨ s.phase = .submitted ∨ s.phase = .idled ∨ s.phase = .recorded

/-! ## Memory orderings of the handoff atomics

The `Ordering` arguments passed at each of the four atomic accesses of
the handoff protocol, read directly from the source. -/

/-- `std::sync::atomic::Ordering`. -/
inductive AtomicOrdering where
  | Relaxed
  | Acquire
  | Release
  | AcqRel
  | SeqCst
deriving DecidableEq, Repr

/-- Ordering of the worker's load of `current_as_index`
(src/async_worker.rs line 75: `Ordering::Relaxed`). -/
def back_index_load_ordering : AtomicOrdering := .Relaxed

/-- Ordering of the worker's publication store into `current_as_index`
(src/async_worker.rs line 99: `Ordering::Relaxed`). -/
def publish_store_ordering : AtomicOrdering := .Relaxed

/-- Ordering of the render task's per-frame load of `current_as_index`
(src/tasks/render.rs line 399: `Ordering::Relaxed`). -/
def render_load_ordering : AtomicOrdering := .Relaxed

/-- Auxiliary characterization: grid coordinates covered by
`create_empty_chunks` (components in `[-WORLD_WIDTH, WORLD_WIDTH)` and
likewise per axis). -/
def inGridRange (g : IVec3) : Bool :=
  (decide (-WORLD_WIDTH ≤ g.x) && decide (g.x < WORLD_WIDTH))
    && (decide (-WORLD_HEIGHT ≤ g.y) && decide (g.y < WORLD_HEIGHT))
    && (decide (-WORLD_DEPTH ≤ g.z) && decide (g.z < WORLD_DEPTH))

/-- The keys of the chunk map. -/
def chunkKeys (m : ChunksInner) : List IVec3 :=
  m.map fun e => e.1

/-- Well-formedness of the chunk map, as a `HashMap` model: no duplicate
chunk keys, a chunk present for every grid coordinate in range, and no
duplicate local keys inside any chunk's voxel map. -/
def ChunksWF (m : ChunksInner) : Prop :=
  (chunkKeys m).Nodup
    ∧ (∀ g, inGridRange g = true → (lookupChunk m g).isSome)
    ∧ ∀ e ∈ m, (e.2.voxels.map fun v => v.1).Nodup

/-! ## Arithmetic of the coordinate transform -/

lemma coord_split (x : Int) :
    (if x < 0 then -(64 : Int) + x + 1 else x).tdiv 64 = x / 64 := by
  by_cases hx : x < 0
  · simp only [hx, if_true]
    have h1 : -(64 : Int) + x + 1 = -(63 - x) := by ring
    rw [h1, Int.neg_tdiv]
    have h2 : (0 : Int) ≤ 63 - x := by omega
    rw [Int.tdiv_eq_ediv h2 (by norm_num)]
    have h3 : 63 - x = (63 - x % 64) + (-(x / 64)) * 64 := by
      have := Int.ediv_add_emod x 64
      omega
    rw [h3, Int.add_mul_ediv_right _ _ (by norm_num : (64 : Int) ≠ 0)]
    have h4 : (63 - x % 64) / 64 = 0 := by
      have h5 : 0 ≤ x % 64 := Int.emod_nonneg _ (by norm_num)
      have h6 : x % 64 < 64 := Int.emod_lt_of_pos _ (by norm_num)
      exact Int.ediv_eq_zero_of_lt (by omega) (by omega)
    omega
  · simp only [hx, if_false]
    exact Int.tdiv_eq_ediv (by omega) (by norm_num)

lemma translation_eq (p : IVec3) (h : Chunks.in_bounds p = true) :
    Chunks.translation_to_position p =
      some (⟨p.x / 64, p.y / 64, p.z / 64⟩,
            ⟨(p.x % 64).toNat, (p.y % 64).toNat, (p.z % 64).toNat⟩) := by
  have hx0 : 0 ≤ p.x % 64 := Int.emod_nonneg _ (by norm_num)
  have hx1 : p.x % 64 < 64 := Int.emod_lt_of_pos _ (by norm_num)
  have hy0 : 0 ≤ p.y % 64 := Int.emod_nonneg _ (by norm_num)
  have hy1 : p.y % 64 < 64 := Int.emod_lt_of_pos _ (by norm_num)
  have hz0 : 0 ≤ p.z % 64 := Int.emod_nonneg _ (by norm_num)
  have hz1 : p.z % 64 < 64 := Int.emod_lt_of_pos _ (by norm_num)
  have ex : p.x - p.x / 64 * 64 = p.x % 64 := by
    have := Int.ediv_add_emod p.x 64; omega
  have ey : p.y - p.y / 64 * 64 = p.y % 64 := by
    have := Int.ediv_add_emod p.y 64; omega
  have ez : p.z - p.z / 64 * 64 = p.z % 64 := by
    have := Int.ediv_add_emod p.z 64; omega
  simp only [Chunks.translation_to_position, h, Bool.not_true, Bool.false_eq_true,
    if_false, CHUNK_WIDTH, Nat.cast_ofNat, coord_split, ex, ey, ez]
  have c1 : ¬ (p.x % 64 < 0) := by omega
  have c2 : ¬ ((64 : Int) < p.x % 64) := by omega
  have c3 : ¬ (p.y % 64 < 0) := by omega
  have c4 : ¬ ((64 : Int) < p.y % 64) := by omega
  have c5 : ¬ (p.z % 64 < 0) := by omega
  have c6 : ¬ ((64 : Int) < p.z % 64) := by omega
  simp [c1, c2, c3, c4, c5, c6]

lemma in_bounds_iff (p : IVec3) :
    Chunks.in_bounds p = true ↔
      (-4096 < p.x ∧ p.x < 4096) ∧ (-4096 < p.y ∧ p.y < 4096)
        ∧ (-4096 < p.z ∧ p.z < 4096) := by
  simp only [Chunks.in_bounds, Bounds.inside, Chunks.X_BOUNDS, Chunks.Y_BOUNDS,
    Chunks.Z_BOUNDS, WORLD_WIDTH, WORLD_HEIGHT, WORLD_DEPTH, CHUNK_WIDTH,
    Nat.cast_ofNat, Bool.and_eq_true, decide_eq_true_eq]
  omega

lemma grid_in_range (p : IVec3) (h : Chunks.in_bounds p = true) :
    inGridRange ⟨p.x / 64, p.y / 64, p.z / 64⟩ = true := by
  rw [in_bounds_iff] at h
  simp only [inGridRange, WORLD_WIDTH, WORLD_HEIGHT, WORLD_DEPTH,
    Bool.and_eq_true, decide_eq_true_eq]
  omega

/-- **C3** (coordinate transform round-trip): for every global coordinate
inside the configured world bound, `translation_to_position` returns
normally with a chunk-grid coordinate and a local coordinate such that
`chunk * CHUNK_WIDTH + local = global` on every axis and every local
component lies in `[0, CHUNK_WIDTH)`; in particular global `(70, 5, 5)`
maps to chunk `(1, 0, 0)` and local `(6, 5, 5)`. -/
theorem c3_coordinate_round_trip :
    (∀ p : IVec3, Chunks.in_bounds p = true →
      ∃ grid localp,
        Chunks.translation_to_position p = some (grid, localp) ∧
        grid.x * (CHUNK_WIDTH : Int) + (localp.x : Int) = p.x ∧
        grid.y * (CHUNK_WIDTH : Int) + (localp.y : Int) = p.y ∧
        grid.z * (CHUNK_WIDTH : Int) + (localp.z : Int) = p.z ∧
        localp.x < CHUNK_WIDTH ∧ localp.y < CHUNK_WIDTH ∧ localp.z < CHUNK_WIDTH) ∧
    Chunks.translation_to_position ⟨70, 5, 5⟩ = some (⟨1, 0, 0⟩, ⟨6, 5, 5⟩) := by
  constructor
  · intro p h
    refine ⟨_, _, translation_eq p h, ?_, ?_, ?_, ?_, ?_, ?_⟩ <;>
      simp only [CHUNK_WIDTH, Nat.cast_ofNat] <;> omega
  · decide

/-- Witness for C3 at the concrete scenario input `(70, 5, 5)`. -/
theorem c3_coordinate_round_trip_witness :
    Chunks.in_bounds ⟨70, 5, 5⟩ = true ∧
    (∃ grid localp,
        Chunks.translation_to_position ⟨70, 5, 5⟩ = some (grid, localp) ∧
        grid.x * (CHUNK_WIDTH : Int) + (localp.x : Int) = (70 : Int) ∧
        grid.y * (CHUNK_WIDTH : Int) + (localp.y : Int) = (5 : Int) ∧
        grid.z * (CHUNK_WIDTH : Int) + (localp.z : Int) = (5 : Int) ∧
        localp.x < CHUNK_WIDTH ∧ localp.y < CHUNK_WIDTH ∧ localp.z < CHUNK_WIDTH) :=
  ⟨by decide, c3_coordinate_round_trip.1 ⟨70, 5, 5⟩ (by decide)⟩

/-! ## Association-list map lemmas -/

lemma mem_intRange {lo hi a : Int} :
    a ∈ intRange lo hi ↔ lo ≤ a ∧ a < hi := by
  simp only [intRange, List.mem_map, List.mem_range]
  constructor
  · rintro ⟨i, hi', rfl⟩; omega
  · intro h; exact ⟨(a - lo).toNat, by omega, by omega⟩

lemma intRange_nodup (lo hi : Int) : (intRange lo hi).Nodup := by
  unfold intRange
  apply List.Nodup.map _ (List.nodup_range _)
  intro i j h
  have h2 : lo + (i : Int) = lo + (j : Int) := h
  omega

lemma create_empty_chunks_mem_iff {g : IVec3} {c : Chunk} :
    (g, c) ∈ Chunks.create_empty_chunks ↔ inGridRange g = true ∧ c = Chunk.default := by
  constructor
  · intro h
    obtain ⟨x, hx, h2⟩ := List.mem_flatMap.1 h
    obtain ⟨y, hy, h3⟩ := List.mem_flatMap.1 h2
    obtain ⟨z, hz, h4⟩ := List.mem_map.1 h3
    injection h4 with h5 h6
    subst h5
    rw [mem_intRange] at hx hy hz
    simp only [WORLD_WIDTH, WORLD_HEIGHT, WORLD_DEPTH] at hx hy hz
    refine ⟨?_, h6.symm⟩
    simp only [inGridRange, WORLD_WIDTH, WORLD_HEIGHT, WORLD_DEPTH, Bool.and_eq_true,
      decide_eq_true_eq]
    omega
  · rintro ⟨hg, rfl⟩
    simp only [inGridRange, WORLD_WIDTH, WORLD_HEIGHT, WORLD_DEPTH, Bool.and_eq_true,
      decide_eq_true_eq] at hg
    refine List.mem_flatMap.2 ⟨g.x, mem_intRange.2 (by simp only [WORLD_WIDTH, WORLD_HEIGHT, WORLD_DEPTH]; omega), ?_⟩
    refine List.mem_flatMap.2 ⟨g.y, mem_intRange.2 (by simp only [WORLD_WIDTH, WORLD_HEIGHT, WORLD_DEPTH]; omega), ?_⟩
    refine List.mem_map.2 ⟨g.z, mem_intRange.2 (by simp only [WORLD_WIDTH, WORLD_HEIGHT, WORLD_DEPTH]; omega), ?_⟩
    obtain ⟨gx, gy, gz⟩ := g
    rfl

lemma lookupChunk_isSome_iff {m : ChunksInner} {g : IVec3} :
    (lookupChunk m g).isSome ↔ ∃ c, (g, c) ∈ m := by
  have h : (lookupChunk m g).isSome = (m.find? fun e => e.1 == g).isSome := by
    unfold lookupChunk
    rcases m.find? fun e => e.1 == g with _ | e <;> simp
  rw [h, List.find?_isSome]
  constructor
  · rintro ⟨e, he, hbeq⟩
    rw [beq_iff_eq] at hbeq
    subst hbeq
    exact ⟨e.2, by simpa using he⟩
  · rintro ⟨c, hc⟩
    exact ⟨(g, c), hc, by simp⟩

lemma lookupChunk_isSome_iff_keys {m : ChunksInner} {g : IVec3} :
    (lookupChunk m g).isSome ↔ g ∈ chunkKeys m := by
  rw [lookupChunk_isSome_iff]
  simp only [chunkKeys, List.mem_map]
  constructor
  · rintro ⟨c, hc⟩; exact ⟨(g, c), hc, rfl⟩
  · rintro ⟨e, he, rfl⟩; exact ⟨e.2, he⟩

lemma lookupChunk_mem {m : ChunksInner} {g : IVec3} {c : Chunk}
    (h : lookupChunk m g = some c) : (g, c) ∈ m := by
  simp only [lookupChunk, Option.map_eq_some'] at h
  obtain ⟨e, he, rfl⟩ := h
  have h1 := List.mem_of_find?_eq_some he
  have h2 := List.find?_some he
  rw [beq_iff_eq] at h2
  cases e
  cases h2
  exact h1

lemma create_empty_chunks_keys :
    chunkKeys Chunks.create_empty_chunks =
      (intRange (-WORLD_WIDTH) WORLD_WIDTH).flatMap fun x =>
        (intRange (-WORLD_HEIGHT) WORLD_HEIGHT).flatMap fun y =>
          (intRange (-WORLD_DEPTH) WORLD_DEPTH).map fun z => IVec3.mk x y z := by
  simp [chunkKeys, Chunks.create_empty_chunks, List.map_flatMap, List.map_map,
    Function.comp_def]

lemma create_empty_chunks_keys_nodup : (chunkKeys Chunks.create_empty_chunks).Nodup := by
  rw [create_empty_chunks_keys, List.nodup_flatMap]
  constructor
  · intro x _
    rw [List.nodup_flatMap]
    constructor
    · intro y _
      refine (intRange_nodup _ _).map ?_
      intro a b h
      injection h with _ _ h3
    · refine (intRange_nodup _ _).imp ?_
      intro a b hab t hta htb
      obtain ⟨z1, _, ht1⟩ := List.mem_map.1 hta
      obtain ⟨z2, _, ht2⟩ := List.mem_map.1 htb
      rw [← ht2] at ht1
      injection ht1 with _ h2 _
      exact hab h2
  · refine (intRange_nodup _ _).imp ?_
    intro a b hab t hta htb
    obtain ⟨y1, _, ht1⟩ := List.mem_flatMap.1 hta
    obtain ⟨y2, _, ht2⟩ := List.mem_flatMap.1 htb
    obtain ⟨z1, _, hz1⟩ := List.mem_map.1 ht1
    obtain ⟨z2, _, hz2⟩ := List.mem_map.1 ht2
    rw [← hz2] at hz1
    injection hz1 with h1 _ _
    exact hab h1

lemma create_empty_chunks_wf : ChunksWF Chunks.create_empty_chunks := by
  refine ⟨create_empty_chunks_keys_nodup, ?_, ?_⟩
  · intro g hg
    exact lookupChunk_isSome_iff.2 ⟨Chunk.default, create_empty_chunks_mem_iff.2 ⟨hg, rfl⟩⟩
  · intro e he
    have h := (create_empty_chunks_mem_iff (g := e.1) (c := e.2)).1 (by simpa using he)
    rw [h.2]
    simp [Chunk.default]

lemma intRange_length (lo hi : Int) : (intRange lo hi).length = (hi - lo).toNat := by
  simp [intRange]

lemma create_empty_chunks_length : Chunks.create_empty_chunks.length = 2097152 := by
  rw [Chunks.create_empty_chunks]
  simp only [List.length_flatMap, Function.comp_def, List.length_map, intRange_length,
    WORLD_WIDTH, WORLD_HEIGHT, WORLD_DEPTH]
  norm_num [List.map_const', List.sum_replicate, intRange_length]
  decide

/-- **C8, counterexample**: the chunk index built by
`create_empty_chunks` does not contain `WORLD_WIDTH * WORLD_HEIGHT *
WORLD_DEPTH = 64 * 64 * 64` chunks: the source iterates each axis over
`-WORLD_WIDTH..WORLD_WIDTH` (128 values), so the count is `128^3`. -/
theorem c8_world_grid_dimensions_counterexample :
    ¬ Chunks.create_empty_chunks.length
        = (WORLD_WIDTH * WORLD_HEIGHT * WORLD_DEPTH).toNat := by
  rw [create_empty_chunks_length]
  decide

/-- **C8, amended** (world grid dimensions): the chunk index constructed
at world initialization contains exactly `(2 * WORLD_WIDTH) * (2 *
WORLD_HEIGHT) * (2 * WORLD_DEPTH) = 128^3 = 2097152` chunks, one created
empty per grid coordinate with components in `[-WORLD_WIDTH,
WORLD_WIDTH)` (and likewise per axis), and each chunk accepts exactly the
`CHUNK_WIDTH^3` local voxel positions with all components below
`CHUNK_WIDTH`. -/
theorem c8_world_grid_dimensions :
    Chunks.create_empty_chunks.length
        = (2 * WORLD_WIDTH * (2 * WORLD_HEIGHT) * (2 * WORLD_DEPTH)).toNat ∧
    (∀ g : IVec3, (g, Chunk.default) ∈ Chunks.create_empty_chunks ↔ inGridRange g = true) ∧
    ∀ (p : UVec3) (v : HostVoxel),
      (Chunk.default.insert p v).isSome
        ↔ p.x < CHUNK_WIDTH ∧ p.y < CHUNK_WIDTH ∧ p.z < CHUNK_WIDTH := by
  refine ⟨?_, ?_, ?_⟩
  · rw [create_empty_chunks_length]
    decide
  · intro g
    rw [create_empty_chunks_mem_iff]
    simp
  · intro p v
    simp only [Chunk.insert, Chunk.default, Chunk.contains, List.any_nil, Bool.false_eq_true,
      if_false, CHUNK_WIDTH]
    by_cases h : 64 ≤ p.x ∨ 64 ≤ p.y ∨ 64 ≤ p.z
    · have hb : (decide (64 ≤ p.x) || decide (64 ≤ p.y) || decide (64 ≤ p.z)) = true := by
        simp only [Bool.or_eq_true, decide_eq_true_eq]
        tauto
      rw [hb]
      simp only [if_true, Option.isSome_none, Bool.false_eq_true, false_iff]
      omega
    · have hb : (decide (64 ≤ p.x) || decide (64 ≤ p.y) || decide (64 ≤ p.z)) = false := by
        simp only [Bool.or_eq_false_iff, decide_eq_false_iff_not]
        tauto
      rw [hb]
      simp only [Bool.false_eq_true, if_false, Option.isSome_some, true_iff]
      omega

/-- **C9, counterexample**: the publication store into `current_as_index`
and the render task's load of it do not use release/acquire ordering:
both source sites pass `Ordering::Relaxed`. -/
theorem c9_memory_ordering_counterexample :
    ¬ (publish_store_ordering = AtomicOrdering.Release
        ∧ render_load_ordering = AtomicOrdering.Acquire) := by
  decide

/-- **C9, amended** (publish/consume memory ordering): the update
worker's store of the back-buffer index into `current_index`, the render
task's per-frame load of it, and the worker's own back-index load all
use relaxed memory ordering; the atomics themselves therefore establish
no release/acquire happens-before edge, and the ordering between the
completed rebuild and the publication is provided only by the compute
flight's wait-idle call returning before the store is executed. -/
theorem c9_memory_ordering_relaxed :
    publish_store_ordering = AtomicOrdering.Relaxed
      ∧ render_load_ordering = AtomicOrdering.Relaxed
      ∧ back_index_load_ordering = AtomicOrdering.Relaxed :=
  ⟨rfl, rfl, rfl⟩

/-- Inductive invariant of the worker/render transition system. -/
def SyncInv (s : SyncState) : Prop :=
  s.lastFrame ≤ s.frame
    ∧ ((s.phase = WorkerPhase.writing ∨ s.phase = WorkerPhase.submitted
          ∨ s.phase = WorkerPhase.idled) → s.lastFrame < s.frame)
    ∧ (s.updating → s.back = !s.published)

lemma syncInv_init (f0 : Nat) : SyncInv (SyncState.init f0) := by
  simp [SyncInv, SyncState.init, SyncState.updating]

lemma syncInv_step {s s' : SyncState} (h : SyncInv s) (hs : WorkerStep s s') :
    SyncInv s' := by
  obtain ⟨h1, h2, h3⟩ := h
  cases hs with
  | tick =>
    refine ⟨by dsimp; omega, fun hp => ?_, fun hp => ?_⟩
    · have := h2 hp
      dsimp at this ⊢
      omega
    · exact h3 hp
  | wake hp =>
    refine ⟨h1, fun hq => by simp at hq, fun hq => ?_⟩
    simp only [SyncState.updating] at hq
    simp at hq
  | startWrite hp hne =>
    exact ⟨h1, fun _ => by dsimp; omega, fun _ => rfl⟩
  | submitDone hp =>
    exact ⟨h1, fun _ => h2 (Or.inl hp), fun _ => h3 (Or.inl hp)⟩
  | idleDone hp =>
    exact ⟨h1, fun _ => h2 (Or.inr (Or.inl hp)), fun _ => h3 (Or.inr (Or.inl hp))⟩
  | recordFrame hp =>
    refine ⟨le_refl _, fun hq => by simp at hq, fun _ => h3 (Or.inr (Or.inr (Or.inl hp)))⟩
  | publish hp =>
    refine ⟨h1, fun hq => by simp at hq, fun hq => ?_⟩
    simp only [SyncState.updating] at hq
    simp at hq

lemma syncInv_reachable {s : SyncState} (h : SyncReachable s) : SyncInv s := by
  induction h with
  | init f0 => exact syncInv_init f0
  | step _ hs ih => exact syncInv_step ih hs

/-- **C1** (double-buffer exclusivity): in every reachable state of the
update protocol, while the worker is anywhere between its back-index
read and the publication store (`WriteInstanceData`..`PublishSwap`), the
back-buffer index is the logical negation of the published index — in
particular the two never coincide — and the only transition that changes
the published index is the publication step, which is enabled only after
the compute flight's wait-idle has returned and the frame baseline was
recorded. -/
theorem c1_double_buffer_exclusivity :
    ∀ s : SyncState, SyncReachable s →
      (s.updating → s.back = !s.published ∧ s.back ≠ s.published)
      ∧ ∀ s' : SyncState, WorkerStep s s' → s'.published ≠ s.published →
          s.phase = WorkerPhase.recorded ∧ s'.published = s.back := by
  intro s hs
  have hinv := syncInv_reachable hs
  constructor
  · intro hup
    have hb := hinv.2.2 hup
    refine ⟨hb, ?_⟩
    rw [hb]
    exact Bool.not_ne_self _
  · intro s' hstep hpub
    cases hstep with
    | tick => exact absurd rfl hpub
    | wake hp => exact absurd rfl hpub
    | startWrite hp hne => exact absurd rfl hpub
    | submitDone hp => exact absurd rfl hpub
    | idleDone hp => exact absurd rfl hpub
    | recordFrame hp => exact absurd rfl hpub
    | publish hp => exact ⟨hp, rfl⟩

/-- Witness for C1: a concrete reachable state in the writing phase whose
back index (`true`) is the negation of the published index (`false`). -/
theorem c1_double_buffer_exclusivity_witness :
    (⟨false, true, WorkerPhase.writing, 1, 0⟩ : SyncState).back
      = !(⟨false, true, WorkerPhase.writing, 1, 0⟩ : SyncState).published
    ∧ (⟨false, true, WorkerPhase.writing, 1, 0⟩ : SyncState).back
      ≠ (⟨false, true, WorkerPhase.writing, 1, 0⟩ : SyncState).published :=
  (c1_double_buffer_exclusivity _
    (SyncReachable.step
      (SyncReachable.step
        (SyncReachable.step (SyncReachable.init 0) (WorkerStep.tick _))
        (WorkerStep.wake _ rfl))
      (WorkerStep.startWrite _ rfl (by decide)))).1 (Or.inl rfl)

/-- **C2** (frame-advance gating): modelling the graphics frame counter
as monotonically increasing, in every reachable state the worker enters
the writing phase only when the current frame counter strictly exceeds
the `last_frame` baseline, and each baseline recording strictly
increases the baseline from one cycle to the next. -/
theorem c2_frame_advance_gating :
    ∀ s : SyncState, SyncReachable s →
      (∀ s' : SyncState, WorkerStep s s' → s.frame ≤ s'.frame)
      ∧ (∀ s' : SyncState, WorkerStep s s' → s.phase = WorkerPhase.polling →
          s'.phase = WorkerPhase.writing → s.lastFrame < s.frame)
      ∧ ∀ s' : SyncState, WorkerStep s s' → s.phase = WorkerPhase.idled →
          s'.phase = WorkerPhase.recorded → s.lastFrame < s'.lastFrame := by
  intro s hs
  have hinv := syncInv_reachable hs
  refine ⟨?_, ?_, ?_⟩
  · intro s' hstep
    cases hstep <;> dsimp <;> omega
  · intro s' hstep hpoll hwrite
    cases hstep with
    | startWrite hp hne => have := hinv.1; dsimp at hwrite; omega
    | tick => rw [hpoll] at hwrite; exact absurd hwrite (by simp)
    | wake hp => exact absurd hwrite (by simp)
    | submitDone hp => exact absurd hwrite (by simp)
    | idleDone hp => exact absurd hwrite (by simp)
    | recordFrame hp => exact absurd hwrite (by simp)
    | publish hp => exact absurd hwrite (by simp)
  · intro s' hstep hidled hrec
    cases hstep with
    | recordFrame hp => exact hinv.2.1 (Or.inr (Or.inr hp))
    | tick => rw [hidled] at hrec; exact absurd hrec (by simp)
    | wake hp => exact absurd hrec (by simp)
    | startWrite hp hne => exact absurd hrec (by simp)
    | submitDone hp => exact absurd hrec (by simp)
    | idleDone hp => exact absurd hrec (by simp)
    | publish hp => exact absurd hrec (by simp)

/-- Witness for C2: the concrete reachable polling state at frame 1 with
baseline 0, stepped into the writing phase. -/
theorem c2_frame_advance_gating_witness :
    (⟨false, false, WorkerPhase.polling, 1, 0⟩ : SyncState).lastFrame
      < (⟨false, false, WorkerPhase.polling, 1, 0⟩ : SyncState).frame :=
  (c2_frame_advance_gating _
    (SyncReachable.step
      (SyncReachable.step (SyncReachable.init 0) (WorkerStep.tick _))
      (WorkerStep.wake _ rfl))).2.1
    _ (WorkerStep.startWrite _ rfl (by decide)) rfl rfl

/-! ## Insertion machinery -/

lemma chunkKeys_updateChunk (m : ChunksInner) (g : IVec3) (c : Chunk) :
    chunkKeys (updateChunk m g c) = chunkKeys m := by
  simp only [chunkKeys, updateChunk, List.map_map]
  apply List.map_congr_left
  intro e _
  by_cases hbeq : e.1 = g
  · simp [Function.comp_def, hbeq]
  · simp [Function.comp_def, hbeq]

lemma lookupChunk_updateChunk_isSome (m : ChunksInner) (g k : IVec3) (c : Chunk) :
    (lookupChunk (updateChunk m g c) k).isSome ↔ (lookupChunk m k).isSome := by
  rw [lookupChunk_isSome_iff_keys, lookupChunk_isSome_iff_keys, chunkKeys_updateChunk]

lemma mem_updateChunk {m : ChunksInner} {g : IVec3} {c : Chunk} {e : IVec3 × Chunk}
    (h : e ∈ updateChunk m g c) : e ∈ m ∨ e = (g, c) := by
  simp only [updateChunk, List.mem_map] at h
  obtain ⟨e0, he0, heq⟩ := h
  by_cases hbeq : e0.1 = g
  · right
    rw [← heq]
    simp [hbeq]
  · left
    rw [← heq]
    simp [hbeq]
    exact he0

lemma lookupChunk_eq_of_mem {m : ChunksInner} {g : IVec3} {c : Chunk}
    (hnd : (chunkKeys m).Nodup) (hm : (g, c) ∈ m) : lookupChunk m g = some c := by
  induction m with
  | nil => cases hm
  | cons e t ih =>
    rw [chunkKeys] at hnd
    simp only [List.map_cons, List.nodup_cons] at hnd
    rcases List.mem_cons.1 hm with heq | ht
    · rw [lookupChunk, List.find?_cons_of_pos _ (by rw [← heq]; simp)]
      rw [← heq]
      simp
    · have hkey : g ∈ chunkKeys t := by
        simp only [chunkKeys, List.mem_map]
        exact ⟨(g, c), ht, rfl⟩
      have hne : ¬ (e.1 == g) = true := by
        rw [beq_iff_eq]
        intro hcontra
        rw [hcontra] at hnd
        exact hnd.1 hkey
      rw [lookupChunk,
        List.find?_cons_of_neg (p := fun x => x.1 == g) (a := e) t hne]
      exact ih (by simpa [chunkKeys] using hnd.2) ht

lemma updateChunk_self {m : ChunksInner} {g : IVec3} {c : Chunk}
    (hnd : (chunkKeys m).Nodup) (hl : lookupChunk m g = some c) :
    updateChunk m g c = m := by
  have hpt : ∀ e ∈ m, (if e.1 == g then (g, c) else e) = e := by
    intro e he
    by_cases hbeq : e.1 = g
    · have hmem : (g, e.2) ∈ m := by
        rw [← hbeq]
        simpa using he
      have := lookupChunk_eq_of_mem hnd hmem
      rw [hl] at this
      injection this with hc
      have hbeq2 : (e.1 == g) = true := by rw [beq_iff_eq]; exact hbeq
      rw [if_pos hbeq2, hc, ← hbeq]
    · simp [hbeq]
  calc updateChunk m g c = m.map id := List.map_congr_left fun e he => hpt e he
  _ = m := List.map_id m

lemma chunk_contains_iff {c : Chunk} {p : UVec3} :
    c.contains p = true ↔ ∃ v, (p, v) ∈ c.voxels := by
  simp only [Chunk.contains, List.any_eq_true, beq_iff_eq]
  constructor
  · rintro ⟨e, he, hbeq⟩
    subst hbeq
    exact ⟨e.2, by simpa using he⟩
  · rintro ⟨v, hv⟩
    exact ⟨(p, v), hv, rfl⟩

lemma chunk_contains_eq_find_isSome {c : Chunk} {p : UVec3} :
    c.contains p = (c.voxels.find? fun e => e.1 == p).isSome := by
  rw [Bool.eq_iff_iff]
  constructor
  · intro hcon
    rw [List.find?_isSome]
    obtain ⟨v, hv⟩ := chunk_contains_iff.1 hcon
    exact ⟨(p, v), hv, by simp⟩
  · intro hfind
    obtain ⟨e, he, hbeq⟩ := List.find?_isSome.1 hfind
    rw [beq_iff_eq] at hbeq
    subst hbeq
    exact chunk_contains_iff.2 ⟨e.2, by simpa using he⟩

lemma voxelKeys_append_nodup {c : Chunk} {p : UVec3} {v : HostVoxel}
    (hnd : (c.voxels.map fun e => e.1).Nodup) (hc : c.contains p = false) :
    (((c.voxels ++ [(p, v)]).map fun e => e.1)).Nodup := by
  rw [List.map_append, List.nodup_append]
  refine ⟨hnd, by simp, ?_⟩
  intro a ha hb
  simp only [List.map_cons, List.map_nil, List.mem_singleton] at hb
  obtain ⟨e, he, hkey⟩ := List.mem_map.1 ha
  have hcontra : c.contains p = true := by
    apply chunk_contains_iff.2
    refine ⟨e.2, ?_⟩
    rw [← hb, ← hkey]
    simpa using he
  rw [hc] at hcontra
  cases hcontra

lemma translation_none {p : IVec3} (h : Chunks.in_bounds p = false) :
    Chunks.translation_to_position p = none := by
  simp [Chunks.translation_to_position, h]

lemma insert_voxel_eq (m : ChunksInner) (p : IVec3) (v : HostVoxel)
    (g : IVec3) (l : UVec3) (c : Chunk)
    (htr : Chunks.translation_to_position p = some (g, l))
    (hc : lookupChunk m g = some c)
    (hlx : l.x < CHUNK_WIDTH) (hly : l.y < CHUNK_WIDTH) (hlz : l.z < CHUNK_WIDTH) :
    Chunks.insert_voxel m p v =
      if c.contains l then some (none, updateChunk m g c)
      else some (some g, updateChunk m g { c with voxels := c.voxels ++ [(l, v)] }) := by
  unfold Chunks.insert_voxel
  rw [htr]
  dsimp only
  rw [hc]
  dsimp only
  unfold Chunk.insert
  have hcond : (decide (CHUNK_WIDTH ≤ l.x) || decide (CHUNK_WIDTH ≤ l.y)
      || decide (CHUNK_WIDTH ≤ l.z)) = false := by
    simp only [Bool.or_eq_false_iff, decide_eq_false_iff_not]
    omega
  rw [hcond]
  by_cases hcont : c.contains l
  · rw [if_pos hcont, if_pos hcont]
    simp
  · rw [if_neg hcont, if_neg hcont]
    simp

lemma contains_eq (w : Chunks) (p : IVec3) (g : IVec3) (l : UVec3) (c : Chunk)
    (htr : Chunks.translation_to_position p = some (g, l))
    (hc : lookupChunk w.inner g = some c) :
    Chunks.contains w p = some (c.contains l) := by
  unfold Chunks.contains
  rw [htr]
  dsimp only
  rw [hc]

lemma get_voxel_eq (w : Chunks) (p : IVec3) (g : IVec3) (l : UVec3) (c : Chunk)
    (htr : Chunks.translation_to_position p = some (g, l))
    (hc : lookupChunk w.inner g = some c) :
    Chunks.get_voxel w p = some ((c.voxels.find? fun e => e.1 == l).map fun e => e.2) := by
  unfold Chunks.get_voxel
  rw [htr]
  dsimp only
  rw [hc]

lemma translation_local_lt (p : IVec3) :
    ((p.x % 64).toNat < CHUNK_WIDTH ∧ (p.y % 64).toNat < CHUNK_WIDTH
      ∧ (p.z % 64).toNat < CHUNK_WIDTH) := by
  simp only [CHUNK_WIDTH]
  omega

lemma insert_voxel_isSome_of {m : ChunksInner} {p : IVec3} {v : HostVoxel}
    (hb : Chunks.in_bounds p = true)
    (hdom : ∀ g, inGridRange g = true → (lookupChunk m g).isSome) :
    (Chunks.insert_voxel m p v).isSome := by
  have htr := translation_eq p hb
  obtain ⟨hlx, hly, hlz⟩ := translation_local_lt p
  obtain ⟨c, hc⟩ := Option.isSome_iff_exists.1 (hdom _ (grid_in_range p hb))
  rw [insert_voxel_eq m p v _ _ c htr hc hlx hly hlz]
  by_cases hcont : c.contains ⟨(p.x % 64).toNat, (p.y % 64).toNat, (p.z % 64).toNat⟩
  · rw [if_pos hcont]
    rfl
  · rw [if_neg hcont]
    rfl

lemma insert_voxel_wf {m : ChunksInner} {p : IVec3} {v : HostVoxel}
    {r : Option IVec3} {m' : ChunksInner} (hwf : ChunksWF m)
    (hb : Chunks.in_bounds p = true)
    (h : Chunks.insert_voxel m p v = some (r, m')) : ChunksWF m' := by
  have htr := translation_eq p hb
  obtain ⟨hlx, hly, hlz⟩ := translation_local_lt p
  obtain ⟨c, hc⟩ := Option.isSome_iff_exists.1 (hwf.2.1 _ (grid_in_range p hb))
  rw [insert_voxel_eq m p v _ _ c htr hc hlx hly hlz] at h
  have hcmem := lookupChunk_mem hc
  by_cases hcont : c.contains ⟨(p.x % 64).toNat, (p.y % 64).toNat, (p.z % 64).toNat⟩
  · rw [if_pos hcont] at h
    injection h with h2
    injection h2 with _ h3
    subst h3
    refine ⟨by rw [chunkKeys_updateChunk]; exact hwf.1, ?_, ?_⟩
    · intro g0 hg0
      rw [lookupChunk_updateChunk_isSome]
      exact hwf.2.1 g0 hg0
    · intro e he
      rcases mem_updateChunk he with hm | hgc
      · exact hwf.2.2 e hm
      · subst hgc
        exact hwf.2.2 _ hcmem
  · rw [if_neg hcont] at h
    injection h with h2
    injection h2 with _ h3
    subst h3
    refine ⟨by rw [chunkKeys_updateChunk]; exact hwf.1, ?_, ?_⟩
    · intro g0 hg0
      rw [lookupChunk_updateChunk_isSome]
      exact hwf.2.1 g0 hg0
    · intro e he
      rcases mem_updateChunk he with hm | hgc
      · exact hwf.2.2 e hm
      · subst hgc
        exact voxelKeys_append_nodup (hwf.2.2 _ hcmem) (by simpa using hcont)

lemma applyInserts_wf : ∀ (ops : List (IVec3 × HostVoxel)) (m : ChunksInner),
    ChunksWF m → (∀ op ∈ ops, Chunks.in_bounds op.1 = true) →
    ∃ m', applyInserts m ops = some m' ∧ ChunksWF m' := by
  intro ops
  induction ops with
  | nil => exact fun m hwf _ => ⟨m, rfl, hwf⟩
  | cons op ops ih =>
    intro m hwf hops
    have hb := hops op (List.mem_cons_self op ops)
    have hsome := insert_voxel_isSome_of (m := m) (v := op.2) hb hwf.2.1
    obtain ⟨rm, h1⟩ := Option.isSome_iff_exists.1 hsome
    obtain ⟨r, m1⟩ := rm
    have hwf1 := insert_voxel_wf hwf hb h1
    obtain ⟨m', h2, hwf'⟩ := ih m1 hwf1 fun o ho => hops o (List.mem_cons_of_mem _ ho)
    refine ⟨m', ?_, hwf'⟩
    have hstep : applyInserts m (op :: ops) =
        match Chunks.insert_voxel m op.1 op.2 with
        | none => none
        | some (_, m2) => applyInserts m2 ops := rfl
    rw [hstep, h1]
    exact h2

/-- **C7** (out-of-bounds insertion is fatal, in-bounds never is):
`insert_voxel` panics whenever any component of the global position lies
outside the configured world bound; for every in-bounds position, on any
chunk map covering the full grid range — as the map built by
`create_empty_chunks` does (third conjunct) — the bounds panic, the
chunk-lookup `unwrap` and the chunk-local bounds panic are all
unreachable and insertion returns normally. -/
theorem c7_bounds_violation_fatal :
    (∀ (m : ChunksInner) (p : IVec3) (v : HostVoxel),
        Chunks.in_bounds p = false → Chunks.insert_voxel m p v = none)
    ∧ (∀ (m : ChunksInner) (p : IVec3) (v : HostVoxel),
        Chunks.in_bounds p = true →
        (∀ g, inGridRange g = true → (lookupChunk m g).isSome) →
        (Chunks.insert_voxel m p v).isSome)
    ∧ ∀ g, inGridRange g = true → (lookupChunk Chunks.create_empty_chunks g).isSome := by
  refine ⟨?_, ?_, create_empty_chunks_wf.2.1⟩
  · intro m p v h
    unfold Chunks.insert_voxel
    rw [translation_none h]
  · intro m p v hb hdom
    exact insert_voxel_isSome_of hb hdom

/-- Witness for C7: inserting at `(4096, 0, 0)` panics on any map, while
inserting at `(70, 5, 5)` into the freshly created world returns
normally. -/
theorem c7_bounds_violation_fatal_witness :
    Chunks.in_bounds ⟨4096, 0, 0⟩ = false
    ∧ Chunks.insert_voxel [] ⟨4096, 0, 0⟩ ⟨1, 0⟩ = none
    ∧ Chunks.in_bounds ⟨70, 5, 5⟩ = true
    ∧ (Chunks.insert_voxel Chunks.create_empty_chunks ⟨70, 5, 5⟩ ⟨1, 0⟩).isSome :=
  ⟨by decide,
   c7_bounds_violation_fatal.1 [] ⟨4096, 0, 0⟩ ⟨1, 0⟩ (by decide),
   by decide,
   c7_bounds_violation_fatal.2.1 Chunks.create_empty_chunks ⟨70, 5, 5⟩ ⟨1, 0⟩ (by decide)
     fun g hg => c7_bounds_violation_fatal.2.2 g hg⟩

/-- **C4** (insert failure semantics and occupancy uniqueness): the
freshly created chunk map is well-formed; over any well-formed map, an
in-bounds insertion returns normally, fails (returns the `None` grid
coordinate) exactly when the position is already occupied, a failed
insertion leaves the map unchanged, and any sequence of in-bounds
insertions keeps the map well-formed — in particular every chunk's voxel
map keeps pairwise-distinct local keys, so no global coordinate is ever
associated with more than one voxel payload. -/
theorem c4_insert_failure_and_uniqueness :
    ChunksWF Chunks.create_empty_chunks
    ∧ ∀ m : ChunksInner, ChunksWF m →
      (∀ (p : IVec3) (v : HostVoxel), Chunks.in_bounds p = true →
        (Chunks.insert_voxel m p v).isSome
        ∧ ((∃ m', Chunks.insert_voxel m p v = some (none, m'))
            ↔ Chunks.contains ⟨m⟩ p = some true)
        ∧ ∀ m', Chunks.insert_voxel m p v = some (none, m') → m' = m)
      ∧ ∀ ops : List (IVec3 × HostVoxel), (∀ op ∈ ops, Chunks.in_bounds op.1 = true) →
          ∃ m', applyInserts m ops = some m' ∧ ChunksWF m' := by
  refine ⟨create_empty_chunks_wf, ?_⟩
  intro m hwf
  constructor
  · intro p v hb
    have htr := translation_eq p hb
    obtain ⟨hlx, hly, hlz⟩ := translation_local_lt p
    obtain ⟨c, hc⟩ := Option.isSome_iff_exists.1 (hwf.2.1 _ (grid_in_range p hb))
    have heq := insert_voxel_eq m p v _ _ c htr hc hlx hly hlz
    have hcon := contains_eq ⟨m⟩ p _ _ c htr hc
    refine ⟨insert_voxel_isSome_of hb hwf.2.1, ?_, ?_⟩
    · rw [hcon]
      by_cases hcont : c.contains ⟨(p.x % 64).toNat, (p.y % 64).toNat, (p.z % 64).toNat⟩
      · rw [if_pos hcont] at heq
        rw [hcont]
        exact iff_of_true ⟨updateChunk m _ c, heq⟩ rfl
      · rw [if_neg hcont] at heq
        rw [heq]
        constructor
        · rintro ⟨m', hm'⟩
          injection hm' with h2
          injection h2 with h3 _
          cases h3
        · intro hfalse
          injection hfalse with h2
          rw [← h2] at hcont
          exact absurd rfl hcont
    · intro m' hm'
      by_cases hcont : c.contains ⟨(p.x % 64).toNat, (p.y % 64).toNat, (p.z % 64).toNat⟩
      · rw [if_pos hcont] at heq
        rw [heq] at hm'
        injection hm' with h2
        injection h2 with _ h3
        rw [← h3]
        exact updateChunk_self hwf.1 hc
      · rw [if_neg hcont] at heq
        rw [heq] at hm'
        injection hm' with h2
        injection h2 with h3 _
        cases h3
  · intro ops hops
    exact applyInserts_wf ops m hwf hops

/-- Witness for C4: inserting at `(70, 5, 5)` into the freshly created
world succeeds (it is unoccupied), and the one-element insertion sequence
preserves well-formedness. -/
theorem c4_insert_failure_and_uniqueness_witness :
    (Chunks.insert_voxel Chunks.create_empty_chunks ⟨70, 5, 5⟩ ⟨1, 0⟩).isSome
    ∧ ∃ m', applyInserts Chunks.create_empty_chunks [(⟨70, 5, 5⟩, ⟨1, 0⟩)] = some m'
        ∧ ChunksWF m' :=
  ⟨((c4_insert_failure_and_uniqueness.2 _ create_empty_chunks_wf).1 ⟨70, 5, 5⟩ ⟨1, 0⟩
      (by decide)).1,
   (c4_insert_failure_and_uniqueness.2 _ create_empty_chunks_wf).2
     [(⟨70, 5, 5⟩, ⟨1, 0⟩)]
     (by intro op hop; rw [List.mem_singleton] at hop; subst hop; decide)⟩

/-- **C10** (read-only queries are partial): `contains` and `get_voxel`
panic through the same fatal bounds check as insertion for every
position outside the configured world bound; for in-bounds positions
over a map covering the grid range they return normally, and the
`Option` result of `get_voxel` distinguishes exactly occupied
(`some (some v)`, equivalently `contains = some true`) from empty. -/
theorem c10_queries_not_total :
    (∀ (w : Chunks) (p : IVec3), Chunks.in_bounds p = false →
        Chunks.contains w p = none ∧ Chunks.get_voxel w p = none)
    ∧ ∀ (w : Chunks) (p : IVec3), Chunks.in_bounds p = true →
        (∀ g, inGridRange g = true → (lookupChunk w.inner g).isSome) →
        (Chunks.contains w p).isSome ∧ (Chunks.get_voxel w p).isSome
        ∧ (Chunks.contains w p = some true
            ↔ ∃ hv, Chunks.get_voxel w p = some (some hv)) := by
  constructor
  · intro w p h
    constructor
    · unfold Chunks.contains
      rw [translation_none h]
    · unfold Chunks.get_voxel
      rw [translation_none h]
  · intro w p hb hdom
    have htr := translation_eq p hb
    obtain ⟨c, hc⟩ := Option.isSome_iff_exists.1 (hdom _ (grid_in_range p hb))
    have hcon := contains_eq w p _ _ c htr hc
    have hget := get_voxel_eq w p _ _ c htr hc
    refine ⟨by rw [hcon]; rfl, by rw [hget]; rfl, ?_⟩
    rw [hcon, hget]
    constructor
    · intro hsome
      injection hsome with h2
      have hfind := chunk_contains_eq_find_isSome (c := c)
          (p := ⟨(p.x % 64).toNat, (p.y % 64).toNat, (p.z % 64).toNat⟩)
      rw [h2] at hfind
      obtain ⟨e, he⟩ := Option.isSome_iff_exists.1 hfind.symm
      exact ⟨e.2, by rw [he]; rfl⟩
    · rintro ⟨hv, hsome⟩
      injection hsome with h2
      rw [Option.map_eq_some'] at h2
      obtain ⟨e, he, _⟩ := h2
      have hfind := chunk_contains_eq_find_isSome (c := c)
          (p := ⟨(p.x % 64).toNat, (p.y % 64).toNat, (p.z % 64).toNat⟩)
      rw [he] at hfind
      rw [hfind]
      rfl

/-- Witness for C10: queries panic at the out-of-bounds `(0, 4096, 0)`
and return normally at `(70, 5, 5)` on the freshly created world. -/
theorem c10_queries_not_total_witness :
    (Chunks.contains ⟨[]⟩ ⟨0, 4096, 0⟩ = none ∧ Chunks.get_voxel ⟨[]⟩ ⟨0, 4096, 0⟩ = none)
    ∧ (Chunks.contains ⟨Chunks.create_empty_chunks⟩ ⟨70, 5, 5⟩).isSome :=
  ⟨c10_queries_not_total.1 ⟨[]⟩ ⟨0, 4096, 0⟩ (by decide),
   (c10_queries_not_total.2 ⟨Chunks.create_empty_chunks⟩ ⟨70, 5, 5⟩ (by decide)
     fun g hg => create_empty_chunks_wf.2.1 g hg).1⟩

/-! ## LOD stride filter -/

lemma chunk_to_instances_filterMapAux (c : Chunk) (lod : Nat) (grid_position : IVec3)
    (asr : Nat) (l : List (UVec3 × HostVoxel)) (hsub : ∀ e ∈ l, c.contains e.1 = true) :
    (l.filterMap fun e =>
        if c.contains e.1 && e.1.x % 2 ^ lod == 0 && e.1.y % 2 ^ lod == 0
            && e.1.z % 2 ^ lod == 0 then
          some (c.mkInstance lod grid_position asr e.1 e.2)
        else none)
      = (l.filter fun e =>
          (e.1.x % 2 ^ lod == 0) && (e.1.y % 2 ^ lod == 0) && (e.1.z % 2 ^ lod == 0)).map
          fun e => c.mkInstance lod grid_position asr e.1 e.2 := by
  induction l with
  | nil => rfl
  | cons e t ih =>
    have hce : c.contains e.1 = true := hsub e (List.mem_cons_self e t)
    have iht := ih fun x hx => hsub x (List.mem_cons_of_mem _ hx)
    rw [List.filterMap_cons, List.filter_cons]
    rcases hx : (e.1.x % 2 ^ lod == 0) with _ | _ <;>
      rcases hy : (e.1.y % 2 ^ lod == 0) with _ | _ <;>
        rcases hz : (e.1.z % 2 ^ lod == 0) with _ | _ <;>
          simp only [hce, hx, hy, hz, Bool.and_true, Bool.and_false, Bool.true_and,
            Bool.false_and, Bool.false_eq_true, eq_self_iff_true, if_true, if_false,
            List.map_cons, iht]

lemma chunk_instanceList_eq (c : Chunk) (lod : Nat) (grid_position : IVec3) (asr : Nat) :
    c.instanceList lod grid_position asr
      = (c.voxels.filter fun e =>
          (e.1.x % 2 ^ lod == 0) && (e.1.y % 2 ^ lod == 0) && (e.1.z % 2 ^ lod == 0)).map
          fun e => c.mkInstance lod grid_position asr e.1 e.2 := by
  unfold Chunk.instanceList
  exact chunk_to_instances_filterMapAux c lod grid_position asr c.voxels
    fun e he => chunk_contains_iff.2 ⟨e.2, by simpa using he⟩

lemma chunk_to_instances_of_lt {c : Chunk} {lod : Nat} {grid_position : IVec3} {asr : Nat}
    (hlod : lod < 32) :
    c.to_instances lod grid_position asr = some (c.instanceList lod grid_position asr) := by
  unfold Chunk.to_instances
  rw [if_neg (not_le.2 (Nat.pow_lt_pow_right (by norm_num) hlod))]

lemma mkInstance_position_inj {c : Chunk} {lod : Nat} {grid_position : IVec3} {asr : Nat}
    {p q : UVec3} {v w : HostVoxel}
    (h : c.mkInstance lod grid_position asr p v = c.mkInstance lod grid_position asr q w) :
    p = q := by
  have hx := congrArg (fun r => r.transform.1.2.2.2) h
  have hy := congrArg (fun r => r.transform.2.1.2.2.2) h
  have hz := congrArg (fun r => r.transform.2.2.2.2.2) h
  simp only [Chunk.mkInstance] at hx hy hz
  have hx2 : ((CHUNK_WIDTH : Int) * grid_position.x + (p.x : Int))
      = ((CHUNK_WIDTH : Int) * grid_position.x + (q.x : Int)) := by
    have h2 := add_right_cancel hx
    exact_mod_cast h2
  have hy2 : ((CHUNK_WIDTH : Int) * grid_position.y + (p.y : Int))
      = ((CHUNK_WIDTH : Int) * grid_position.y + (q.y : Int)) := by
    have h2 := add_right_cancel hy
    exact_mod_cast h2
  have hz2 : ((CHUNK_WIDTH : Int) * grid_position.z + (p.z : Int))
      = ((CHUNK_WIDTH : Int) * grid_position.z + (q.z : Int)) := by
    have h2 := add_right_cancel hz
    exact_mod_cast h2
  obtain ⟨px, py, pz⟩ := p
  obtain ⟨qx, qy, qz⟩ := q
  dsimp only at hx2 hy2 hz2
  simp only [UVec3.mk.injEq]
  refine ⟨?_, ?_, ?_⟩ <;> omega

/-- **C6** (LOD stride filter): for every chunk, grid position, BLAS
reference and `lod` below the `u32` exponent limit (where instance
generation returns normally rather than panicking on the exponent), a
voxel stored at local position `p` contributes its instance record to
the chunk's output if and only if all three components of `p` are
divisible by `2^lod`; in particular the number of instances produced at
`lod = 1` never exceeds the number produced at `lod = 0`. -/
theorem c6_lod_stride_filter :
    ∀ (c : Chunk) (grid_position : IVec3) (asr : Nat),
      (∀ lod : Nat, lod < 32 → ∀ (p : UVec3) (v : HostVoxel), (p, v) ∈ c.voxels →
        ∃ out, c.to_instances lod grid_position asr = some out
          ∧ (c.mkInstance lod grid_position asr p v ∈ out
              ↔ 2 ^ lod ∣ p.x ∧ 2 ^ lod ∣ p.y ∧ 2 ^ lod ∣ p.z))
      ∧ ∃ out1 out0, c.to_instances 1 grid_position asr = some out1
          ∧ c.to_instances 0 grid_position asr = some out0
          ∧ out1.length ≤ out0.length := by
  intro c grid_position asr
  constructor
  · intro lod hlod p v hpv
    refine ⟨_, chunk_to_instances_of_lt hlod, ?_⟩
    rw [chunk_instanceList_eq]
    constructor
    · intro hmem
      obtain ⟨e, hef, hee⟩ := List.mem_map.1 hmem
      have hpe : e.1 = p := mkInstance_position_inj hee
      have hcond := (List.mem_filter.1 hef).2
      rw [hpe] at hcond
      simp only [Bool.and_eq_true, beq_iff_eq] at hcond
      exact ⟨Nat.dvd_iff_mod_eq_zero.2 hcond.1.1, Nat.dvd_iff_mod_eq_zero.2 hcond.1.2,
        Nat.dvd_iff_mod_eq_zero.2 hcond.2⟩
    · rintro ⟨hdx, hdy, hdz⟩
      refine List.mem_map.2 ⟨(p, v), List.mem_filter.2 ⟨hpv, ?_⟩, rfl⟩
      simp only [Bool.and_eq_true, beq_iff_eq]
      exact ⟨⟨Nat.dvd_iff_mod_eq_zero.1 hdx, Nat.dvd_iff_mod_eq_zero.1 hdy⟩,
        Nat.dvd_iff_mod_eq_zero.1 hdz⟩
  · refine ⟨_, _, chunk_to_instances_of_lt (by norm_num),
      chunk_to_instances_of_lt (by norm_num), ?_⟩
    rw [chunk_instanceList_eq, chunk_instanceList_eq, List.length_map, List.length_map]
    have h0 : (c.voxels.filter fun e =>
        (e.1.x % 2 ^ 0 == 0) && (e.1.y % 2 ^ 0 == 0) && (e.1.z % 2 ^ 0 == 0)) = c.voxels := by
      apply List.filter_eq_self.2
      intro e _
      simp [Nat.mod_one]
    rw [h0]
    exact List.length_filter_le _ _

/-- Witness for C6: a one-voxel chunk at local position `(2, 2, 2)`,
which survives the `lod = 1` stride filter. -/
theorem c6_lod_stride_filter_witness :
    (1 : Nat) < 32
    ∧ ((⟨2, 2, 2⟩ : UVec3), (⟨1, 0⟩ : HostVoxel))
        ∈ (⟨true, [(⟨2, 2, 2⟩, ⟨1, 0⟩)]⟩ : Chunk).voxels
    ∧ ∃ out, Chunk.to_instances ⟨true, [(⟨2, 2, 2⟩, ⟨1, 0⟩)]⟩ 1 ⟨0, 0, 0⟩ 0 = some out
        ∧ (Chunk.mkInstance ⟨true, [(⟨2, 2, 2⟩, ⟨1, 0⟩)]⟩ 1 ⟨0, 0, 0⟩ 0 ⟨2, 2, 2⟩ ⟨1, 0⟩
              ∈ out
            ↔ 2 ^ 1 ∣ (⟨2, 2, 2⟩ : UVec3).x ∧ 2 ^ 1 ∣ (⟨2, 2, 2⟩ : UVec3).y
                ∧ 2 ^ 1 ∣ (⟨2, 2, 2⟩ : UVec3).z) :=
  ⟨by decide, by decide,
   (c6_lod_stride_filter ⟨true, [(⟨2, 2, 2⟩, ⟨1, 0⟩)]⟩ ⟨0, 0, 0⟩ 0).1 1 (by decide)
     ⟨2, 2, 2⟩ ⟨1, 0⟩ (by decide)⟩

/-! ## Nearest-first ordering with capacity truncation -/

lemma tryMap_some {α β : Type} (l : List α) (f : α → Option β)
    (h : ∀ a ∈ l, (f a).isSome) :
    ∃ bs, tryMap l f = some bs ∧ List.Forall₂ (fun a b => f a = some b) l bs := by
  induction l with
  | nil => exact ⟨[], rfl, List.Forall₂.nil⟩
  | cons a t ih =>
    obtain ⟨b, hb⟩ := Option.isSome_iff_exists.1 (h a (List.mem_cons_self a t))
    obtain ⟨bs, htm, hf2⟩ := ih fun x hx => h x (List.mem_cons_of_mem _ hx)
    refine ⟨b :: bs, ?_, List.Forall₂.cons hb hf2⟩
    have hstep : tryMap (a :: t) f = match f a, tryMap t f with
      | some b, some bs => some (b :: bs)
      | _, _ => none := rfl
    rw [hstep, hb, htm]

lemma forall2_pairs {m : ChunksInner} : ∀ {l : List IVec3} {bs : List (IVec3 × Chunk)},
    List.Forall₂ (fun a b => ((lookupChunk m a).map fun c => (a, c)) = some b) l bs →
    bs.map (fun e => e.1) = l ∧ ∀ e ∈ bs, lookupChunk m e.1 = some e.2 := by
  intro l bs h
  induction h with
  | nil => exact ⟨rfl, by simp⟩
  | cons hab htail ih =>
    obtain ⟨c, hc, hbe⟩ := Option.map_eq_some'.1 hab
    constructor
    · rw [List.map_cons, ih.1, ← hbe]
    · intro e he
      rcases List.mem_cons.1 he with heq | hmem
      · subst heq
        rw [← hbe]
        exact hc
      · exact ih.2 e hmem

lemma chunks_to_instances_def (w : Chunks) (lod : Nat) (origin : IVec3)
    (asr maxc : Nat) :
    Chunks.to_instances w lod origin asr maxc
      = Chunks.instancesFlatTake w.inner lod asr maxc
          ((w.active_chunks).insertionSort (chunkDistLE origin)) := rfl

lemma instancesFlatTake_eq (m : ChunksInner) (lod : Nat) (asr : Nat) (hlod : lod < 32) :
    ∀ (pairs : List (IVec3 × Chunk)) (maxc : Nat),
      (∀ e ∈ pairs, lookupChunk m e.1 = some e.2) →
      Chunks.instancesFlatTake m lod asr maxc (pairs.map fun e => e.1)
        = some ((pairs.flatMap fun gc => gc.2.instanceList lod gc.1 asr).take maxc) := by
  intro pairs
  induction pairs with
  | nil =>
    intro maxc _
    simp [Chunks.instancesFlatTake]
  | cons gc rest ih =>
    intro maxc hlk
    have hhd : lookupChunk m gc.1 = some gc.2 := hlk gc (List.mem_cons_self _ _)
    have htl := fun e he => hlk e (List.mem_cons_of_mem _ he)
    have hstep : Chunks.instancesFlatTake m lod asr maxc ((gc :: rest).map fun e => e.1)
        = if maxc = 0 then some [] else
            match lookupChunk m gc.1 with
            | none => none
            | some c =>
              match c.to_instances lod gc.1 asr with
              | none => none
              | some block =>
                (Chunks.instancesFlatTake m lod asr
                    (maxc - (block.take maxc).length) (rest.map fun e => e.1)).map
                  fun tail => block.take maxc ++ tail := rfl
    rw [hstep]
    by_cases hmz : maxc = 0
    · subst hmz
      simp
    · rw [if_neg hmz, hhd]
      dsimp only
      rw [chunk_to_instances_of_lt hlod]
      dsimp only
      rw [ih _ htl, Option.map_some', List.flatMap_cons, List.take_append_eq_append_take]
      have hlen : maxc - ((gc.2.instanceList lod gc.1 asr).take maxc).length
          = maxc - (gc.2.instanceList lod gc.1 asr).length := by
        rw [List.length_take]
        omega
      rw [hlen]

/-- **C5** (nearest-first ordering with capacity truncation): for every
world state, reference point and capacity, and every `lod` below the
`u32` exponent limit (where per-chunk instance generation returns
normally rather than panicking on the exponent), `to_instances` returns
normally; its output is the `max_instance_count`-prefix of the
concatenation of per-chunk instance blocks taken over exactly the active
chunks, arranged in non-decreasing integer-truncated chunk-grid distance
from the reference point, and its length is the minimum of the capacity
and the total candidate count — so when the candidates exceed the
capacity, exactly `max_instance_count` records are returned and the
records of the most distant chunks are dropped first. -/
theorem c5_nearest_first_truncation :
    ∀ (w : Chunks) (lod : Nat) (origin : IVec3) (asr maxc : Nat), lod < 32 →
      ∃ pairs : List (IVec3 × Chunk),
        (pairs.map fun e => e.1).Perm w.active_chunks
        ∧ pairs.Pairwise (fun a b =>
            Chunks.distance_to_chunk a.1 origin ≤ Chunks.distance_to_chunk b.1 origin)
        ∧ (∀ e ∈ pairs, lookupChunk w.inner e.1 = some e.2)
        ∧ Chunks.to_instances w lod origin asr maxc
            = some ((pairs.flatMap fun gc => gc.2.instanceList lod gc.1 asr).take maxc)
        ∧ ((pairs.flatMap fun gc => gc.2.instanceList lod gc.1 asr).take maxc).length
            = min maxc (pairs.flatMap fun gc => gc.2.instanceList lod gc.1 asr).length := by
  intro w lod origin asr maxc hlod
  haveI htotal : IsTotal IVec3 (chunkDistLE origin) := ⟨fun a b => le_total _ _⟩
  haveI htrans : IsTrans IVec3 (chunkDistLE origin) := ⟨fun a b c hab hbc => le_trans hab hbc⟩
  have hperm : ((w.active_chunks).insertionSort (chunkDistLE origin)).Perm w.active_chunks :=
    List.perm_insertionSort _ _
  have hsorted : ((w.active_chunks).insertionSort (chunkDistLE origin)).Sorted
      (chunkDistLE origin) := List.sorted_insertionSort _ _
  have hsub : ∀ g ∈ (w.active_chunks).insertionSort (chunkDistLE origin),
      ((lookupChunk w.inner g).map fun c => (g, c)).isSome := by
    intro g hg
    have hg2 : g ∈ w.active_chunks := hperm.mem_iff.1 hg
    simp only [Chunks.active_chunks, List.mem_map, List.mem_filter] at hg2
    obtain ⟨e, ⟨hem, _⟩, rfl⟩ := hg2
    have : (lookupChunk w.inner e.1).isSome :=
      lookupChunk_isSome_iff.2 ⟨e.2, by simpa using hem⟩
    rcases ho : lookupChunk w.inner e.1 with _ | c
    · rw [ho] at this
      cases this
    · rfl
  obtain ⟨pairs, htm, hf2⟩ := tryMap_some _ _ hsub
  obtain ⟨hfst, hlk⟩ := forall2_pairs hf2
  refine ⟨pairs, ?_, ?_, hlk, ?_, ?_⟩
  · rw [hfst]
    exact hperm
  · have hpw : List.Pairwise (chunkDistLE origin) (pairs.map fun e => e.1) := by
      rw [hfst]
      exact hsorted
    rw [List.pairwise_map] at hpw
    exact hpw
  · rw [chunks_to_instances_def, ← hfst]
    exact instancesFlatTake_eq w.inner lod asr hlod pairs maxc hlk
  · rw [List.length_take]

/-- Witness for C5 at `lod = 0` on a concrete world with one active
chunk. -/
theorem c5_nearest_first_truncation_witness :
    (0 : Nat) < 32
    ∧ ∃ pairs : List (IVec3 × Chunk),
      (pairs.map fun e => e.1).Perm
        (Chunks.mk [(⟨0, 0, 0⟩, ⟨true, [(⟨1, 2, 3⟩, ⟨1, 0⟩)]⟩)]).active_chunks
      ∧ pairs.Pairwise (fun a b =>
          Chunks.distance_to_chunk a.1 ⟨0, 0, 0⟩ ≤ Chunks.distance_to_chunk b.1 ⟨0, 0, 0⟩)
      ∧ (∀ e ∈ pairs,
          lookupChunk (Chunks.mk [(⟨0, 0, 0⟩, ⟨true, [(⟨1, 2, 3⟩, ⟨1, 0⟩)]⟩)]).inner e.1
            = some e.2)
      ∧ Chunks.to_instances (Chunks.mk [(⟨0, 0, 0⟩, ⟨true, [(⟨1, 2, 3⟩, ⟨1, 0⟩)]⟩)]) 0
            ⟨0, 0, 0⟩ 7 1
          = some ((pairs.flatMap fun gc => gc.2.instanceList 0 gc.1 7).take 1)
      ∧ ((pairs.flatMap fun gc => gc.2.instanceList 0 gc.1 7).take 1).length
          = min 1 (pairs.flatMap fun gc => gc.2.instanceList 0 gc.1 7).length :=
  ⟨by decide,
   c5_nearest_first_truncation (Chunks.mk [(⟨0, 0, 0⟩, ⟨true, [(⟨1, 2, 3⟩, ⟨1, 0⟩)]⟩)])
     0 ⟨0, 0, 0⟩ 7 1 (by decide)⟩
